import Mathlib

/-!
Verification of the topic-modelling pipeline of the GreenComputing notebooks.

The notebook `TopicModelling.ipynb` prepares a Web-of-Science dataframe
(dropping rows with a missing abstract and rows flagged as reviews), builds a
gensim `Dictionary` pruned with `filter_extremes(no_below=5, no_above=0.5,
keep_n=1000)`, encodes each tokenized document with `doc2bow`, trains
`LdaMulticore(random_state=42, iterations=50, num_topics=14, workers=4,
passes=10)` (and a model-selection sweep over `range(1,20)` with
`iterations=10`), and labels each document with
`sorted(lda_model[corpus][text])[0][0]`.

The library internals (gensim `Dictionary.filter_extremes`, `doc2bow`,
`LdaMulticore`, `CoherenceModel`) are not part of the repository sources; where
a claim depends on them they are modelled from the specification, as flagged in
the individual doc comments.  Everything written directly in the notebook cells
is embedded from those cells.
-/

namespace GreenComputing

/-- A tokenized document: an ordered list of normalized token strings. -/
abbrev Doc := List String

/-- Document frequency of token `t`: the number of documents of `docs` that
contain `t` at least once (spec §3: distinct from raw term frequency). -/
def docFreq (docs : List Doc) (t : String) : Nat :=
  (docs.filter (fun d => d.contains t)).length

/-- The distinct tokens of `docs` in first-seen order: a fold over the
documents in corpus order and over each document in token order, keeping the
first occurrence of every token. -/
def firstSeenTokens (docs : List Doc) : List String :=
  docs.foldl (fun acc d => d.foldl (fun a t => if a.contains t then a else a ++ [t]) acc) []

/-- Modelled from the spec: the document-frequency filter of the Vocabulary
Builder (gensim `Dictionary.filter_extremes` is not in the sources).  A token
survives when its document frequency is at least `minDf` and its
document-frequency fraction `docFreq / |docs|` does not exceed `maxFrac`
(spec §4.1); the fraction bound is stated by cross-multiplication with the
positive denominator of `maxFrac`, which is equivalent to
`(docFreq : ℚ) / |docs| ≤ maxFrac` whenever `docs` is nonempty. -/
def survivors (docs : List Doc) (minDf : Nat) (maxFrac : ℚ) : List String :=
  (firstSeenTokens docs).filter
    (fun t => decide (minDf ≤ docFreq docs t) &&
              decide ((docFreq docs t : Int) * (maxFrac.den : Int) ≤
                      maxFrac.num * (docs.length : Int)))

/-- Insert `a` into `l` before the first element `b` with `le a b`; used to
build a stable insertion sort. -/
def insertLe {α : Type} (le : α → α → Bool) (a : α) : List α → List α
  | [] => [a]
  | b :: bs => if le a b then a :: b :: bs else b :: insertLe le a bs

/-- Stable insertion sort by the boolean relation `le`. -/
def isort {α : Type} (le : α → α → Bool) : List α → List α
  | [] => []
  | a :: as => insertLe le a (isort le as)

/-- Comparison placing tokens of larger document frequency first. -/
def dfGe (docs : List Doc) (a b : String) : Bool :=
  decide (docFreq docs b ≤ docFreq docs a)

/-- Modelled from the spec: the surviving tokens sorted by decreasing document
frequency, ties kept in first-seen order by stability (spec §4.1). -/
def sortedSurvivors (docs : List Doc) (minDf : Nat) (maxFrac : ℚ) : List String :=
  isort (dfGe docs) (survivors docs minDf maxFrac)

/-- Modelled from the spec: the Vocabulary Builder contract `build` (spec
§4.1); the vocabulary is the list of retained tokens, the integer id of a
token being its position in the list.  At most `maxSize` tokens are kept, the
most frequent by document frequency, ties broken by first-seen order. -/
def build (docs : List Doc) (minDf : Nat) (maxFrac : ℚ) (maxSize : Nat) : List String :=
  (sortedSurvivors docs minDf maxFrac).take maxSize

/-- Modelled from the spec: the Corpus Encoder for one document (gensim
`Dictionary.doc2bow` is not in the sources).  For each vocabulary id `i` in
increasing order, the occurrence count of the token with id `i` is taken from
the document; pairs with count 0 are omitted, and tokens absent from the
vocabulary produce no pair at all (spec §4.2: silently dropped). -/
def doc2bow (vocab : List String) (doc : Doc) : List (Nat × Nat) :=
  (List.range vocab.length).filterMap (fun i =>
    match vocab[i]? with
    | some t => if doc.count t = 0 then none else some (i, doc.count t)
    | none => none)

/-- Modelled from the spec: the Corpus Encoder contract `encode` (spec §4.2),
one sparse vector per document in the exact input order. -/
def encode (docs : List Doc) (vocab : List String) : List (List (Nat × Nat)) :=
  docs.map (doc2bow vocab)

/-- A row of the Web-of-Science dataframe, restricted to the fields the
notebook touches: the abstract `AB` (possibly missing), the added boolean
`review` flag, and the `tokens` column produced by preprocessing. -/
structure WosRow where
  AB : Option String
  review : Bool
  tokens : Doc
  deriving DecidableEq

/-- The filter `wos_df = wos_df[~wos_df['AB'].isna()]` of the notebook:
rows with a missing abstract are removed. -/
def dropMissingAbstract (rows : List WosRow) : List WosRow :=
  rows.filter (fun r => !r.AB.isNone)

/-- The filter `wos_df = wos_df[~wos_df['review']]` of the notebook:
review articles are removed. -/
def dropReviews (rows : List WosRow) : List WosRow :=
  rows.filter (fun r => !r.review)

/-- The dataframe after the two filtering lines of the notebook, i.e. the rows
the rest of the pipeline works on.  (The notebook then reloads the same
filtered dataframe, with its `tokens` column precomputed, from a pickle.) -/
def preparedRows (rows : List WosRow) : List WosRow :=
  dropReviews (dropMissingAbstract rows)

/-- The tokenized documents handed to `Dictionary` and `doc2bow`:
the `tokens` column of the prepared dataframe. -/
def pipelineDocs (rows : List WosRow) : List Doc :=
  (preparedRows rows).map (fun r => r.tokens)

/-- The fraction one half, the notebook value `no_above=0.5`, in normal form
so that the kernel can evaluate with it. -/
def noAboveHalf : ℚ := ⟨1, 2, by decide, Nat.coprime_one_left 2⟩

/-- The pruned dictionary of the notebook:
`Dictionary(wos_df['tokens'])` followed by
`dictionary.filter_extremes(no_below=5, no_above=0.5, keep_n=1000)`. -/
def pipelineDictionary (rows : List WosRow) : List String :=
  build (pipelineDocs rows) 5 noAboveHalf 1000

/-- The encoded corpus of the notebook:
`corpus = [dictionary.doc2bow(doc) for doc in wos_df['tokens']]`. -/
def pipelineCorpus (rows : List WosRow) : List (List (Nat × Nat)) :=
  encode (pipelineDocs rows) (pipelineDictionary rows)

/-- The keyword arguments of an `LdaMulticore` call in the notebook. -/
structure LdaCall where
  randomState : Nat
  iterations : Nat
  numTopics : Nat
  workers : Nat
  passes : Nat

/-- The python `range(start, stop)` with step 1: the integers from `start`
(inclusive) to `stop` (exclusive). -/
def pythonRange (start stop : Nat) : List Nat :=
  List.range' start (stop - start)

/-- The topic counts tried by the model-selection sweep of the notebook:
`for i in range(1,20,1)`. -/
def sweepTopicCounts : List Nat :=
  pythonRange 1 20

/-- The `LdaMulticore` call inside the sweep loop:
`LdaMulticore(corpus=corpus, id2word=dictionary, random_state=42,
iterations=10, num_topics=i, workers=4, passes=10)`. -/
def sweepLdaCall (i : Nat) : LdaCall :=
  ⟨42, 10, i, 4, 10⟩

/-- The final training call of the notebook, with `number_of_topics = 14`:
`LdaMulticore(corpus=corpus, id2word=dictionary, random_state=42,
iterations=50, num_topics=number_of_topics, workers=4, passes=10)`. -/
def finalLdaCall : LdaCall :=
  ⟨42, 50, 14, 4, 10⟩

/-- Lexicographic comparison on (topic id, probability) pairs: the order the
python builtin `sorted` applies to a list of 2-tuples. -/
def pairLex (p q : Nat × ℚ) : Bool :=
  decide (p.1 < q.1) || (decide (p.1 = q.1) && decide (p.2 ≤ q.2))

/-- The topic label the notebook stores for one document:
`sorted(lda_model[corpus][text])[0][0]`, where `lda_model[corpus][text]` is
the document's list of (topic id, probability) pairs.  The python `sorted`
orders the pairs lexicographically, so `[0][0]` is the smallest listed topic
id; `none` models the `IndexError` python raises on an empty list. -/
def assignedTopic (docTopics : List (Nat × ℚ)) : Option Nat :=
  (isort pairLex docTopics).head?.map (fun p => p.1)

/-- Modelled from the spec: the dominant topic of a θ row, the argmax with
ties broken by the lowest topic id (spec §4.5); compared against
`assignedTopic`, which is what the notebook computes. -/
def dominantTopic (row : List ℚ) : Nat :=
  (List.range row.length).foldl
    (fun best i => if row.getD best 0 < row.getD i 0 then i else best) 0

/-- Modelled from the spec: the per-document variational inference loop of the
trainer (gensim `LdaModel.inference` is not in the sources).  Given the cap
`maxIter` (the `iterations` argument), a convergence threshold, and the mean
parameter change produced by each iteration, it returns the number of
iterations executed: each iteration runs and the loop exits early as soon as
the change of the iteration just run falls below the threshold — the
cap-or-convergence policy of spec §4.3 at the per-document level. -/
def inferIters : Nat → ℚ → (Nat → ℚ) → Nat
  | 0, _, _ => 0
  | maxIter + 1, threshold, change =>
    if change 0 < threshold then 1
    else 1 + inferIters maxIter threshold (fun i => change (i + 1))

/-- Modelled from the spec: the outer training loop of the trainer (gensim
`LdaModel.update` is not in the sources).  Spec §9 records that the source
trains with a fixed, hard-coded pass count: the loop runs exactly
`cfg.passes` passes over the corpus and never consults the change of the
bound between passes, so the executed pass count is independent of the
convergence trace `boundChange`. -/
def passesExecuted (cfg : LdaCall) (boundChange : Nat → ℚ) : Nat :=
  cfg.passes

/-- Number of documents of `texts` containing both `t` and `u`:
document-level co-occurrence, which spec §4.4 allows for corpora of short
documents. -/
def coDocCount (texts : List Doc) (t u : String) : Nat :=
  (texts.filter (fun d => d.contains t && d.contains u)).length

/-- Modelled from the spec: the total co-occurrence mass of a topic's top
terms with every other vocabulary term (spec §4.4); the denominator of the
topic's coherence degenerates exactly when this mass is zero, i.e. when the
top terms never co-occur with anything. -/
def topicCoocMass (texts : List Doc) (vocabTokens : List String) (top : List String) : Nat :=
  (top.map (fun t =>
    ((vocabTokens.filter (fun u => !(u == t))).map (fun u => coDocCount texts t u)).sum)).sum

/-- Modelled from the spec: the coherence contribution of one topic (gensim
`CoherenceModel` is not in the sources).  The c_v aggregation over
normalized-PMI co-occurrence vectors (spec §4.4) is taken as a parameter
`sim`, since its logarithms live outside any computable embedding; the
degenerate-denominator rule of spec §7 is explicit: a topic whose top terms
never co-occur with anything contributes 0 instead of failing. -/
def topicCoherence (texts : List Doc) (vocabTokens : List String) (top : List String)
    (sim : List String → ℚ) : ℚ :=
  if topicCoocMass texts vocabTokens top = 0 then 0 else sim top

/-- Modelled from the spec: the overall coherence of a model, the mean of its
topics' contributions (spec §4.4); a total function, so scoring never aborts. -/
def modelCoherence (texts : List Doc) (vocabTokens : List String)
    (topTerms : List (List String)) (sim : List String → ℚ) : ℚ :=
  ((topTerms.map (fun top => topicCoherence texts vocabTokens top sim)).sum) /
    (topTerms.length : ℚ)

/-- Concrete three-document collection, the vocabulary scenario of spec §8. -/
def docsABC : List Doc := [["a", "b", "a"], ["b", "c"], ["a", "c", "c"]]

/-- A sample dataframe: one usable row, one row with a missing abstract, one
review article. -/
def rowsSample : List WosRow :=
  [⟨some "abs one", false, ["a", "b"]⟩, ⟨none, false, ["x"]⟩, ⟨some "abs two", true, ["c"]⟩]

/-- The rational number 3/10 in normal form. -/
def prob3of10 : ℚ := ⟨3, 10, by decide, by norm_num [Nat.Coprime]⟩

/-- The rational number 7/10 in normal form. -/
def prob7of10 : ℚ := ⟨7, 10, by decide, by norm_num [Nat.Coprime]⟩

/-- The rational number 1/2 in normal form. -/
def prob1of2 : ℚ := ⟨1, 2, by decide, Nat.coprime_one_left 2⟩

theorem insertLe_perm {α : Type} (le : α → α → Bool) (a : α) :
    ∀ l : List α, (insertLe le a l).Perm (a :: l)
  | [] => List.Perm.refl _
  | b :: bs => by
    unfold insertLe
    by_cases h : le a b = true
    · simp [h]
    · simp only [Bool.not_eq_true] at h
      simp only [h, Bool.false_eq_true, if_false]
      exact ((insertLe_perm le a bs).cons b).trans (List.Perm.swap a b bs)

theorem isort_perm {α : Type} (le : α → α → Bool) :
    ∀ l : List α, (isort le l).Perm l
  | [] => List.Perm.refl _
  | a :: as =>
    (insertLe_perm le a (isort le as)).trans ((isort_perm le as).cons a)

theorem mem_insertLe {α : Type} {le : α → α → Bool} {a x : α} {l : List α} :
    x ∈ insertLe le a l ↔ x = a ∨ x ∈ l := by
  rw [(insertLe_perm le a l).mem_iff, List.mem_cons]

theorem pairwise_insertLe {α : Type} {le : α → α → Bool}
    (htot : ∀ a b, le a b = false → le b a = true)
    (htrans : ∀ a b c, le a b = true → le b c = true → le a c = true)
    (a : α) : ∀ l : List α, l.Pairwise (fun x y => le x y = true) →
      (insertLe le a l).Pairwise (fun x y => le x y = true)
  | [], _ => by simp [insertLe]
  | b :: bs, h => by
    unfold insertLe
    rcases List.pairwise_cons.mp h with ⟨hb, hbs⟩
    by_cases hle : le a b = true
    · simp only [hle, if_true]
      refine List.pairwise_cons.mpr ⟨?_, h⟩
      intro x hx
      rcases List.mem_cons.mp hx with rfl | hx
      · exact hle
      · exact htrans a b x hle (hb x hx)
    · simp only [hle, if_false]
      refine List.pairwise_cons.mpr ⟨?_, pairwise_insertLe htot htrans a bs hbs⟩
      intro x hx
      have hf : le a b = false := by
        cases hv : le a b
        · rfl
        · exact absurd hv hle
      rcases mem_insertLe.mp hx with hxa | hx
      · subst hxa
        exact htot _ _ hf
      · exact hb x hx

theorem pairwise_isort {α : Type} {le : α → α → Bool}
    (htot : ∀ a b, le a b = false → le b a = true)
    (htrans : ∀ a b c, le a b = true → le b c = true → le a c = true) :
    ∀ l : List α, (isort le l).Pairwise (fun x y => le x y = true)
  | [] => List.Pairwise.nil
  | a :: as => pairwise_insertLe htot htrans a (isort le as) (pairwise_isort htot htrans as)

theorem dfGe_total (docs : List Doc) (a b : String) :
    dfGe docs a b = false → dfGe docs b a = true := by
  unfold dfGe
  intro h
  simp only [decide_eq_false_iff_not, Nat.not_le] at h
  simp only [decide_eq_true_eq]
  exact Nat.le_of_lt h

theorem dfGe_trans (docs : List Doc) (a b c : String) :
    dfGe docs a b = true → dfGe docs b c = true → dfGe docs a c = true := by
  unfold dfGe
  simp only [decide_eq_true_eq]
  intro h1 h2
  exact Nat.le_trans h2 h1

theorem filter_insertLe_dfGe (docs : List Doc) (k : Nat) (a : String) :
    ∀ l : List String,
      (insertLe (dfGe docs) a l).filter (fun t => docFreq docs t == k) =
        (if docFreq docs a = k then
          a :: l.filter (fun t => docFreq docs t == k)
        else l.filter (fun t => docFreq docs t == k))
  | [] => by
    by_cases h : docFreq docs a = k <;>
      simp [insertLe, List.filter_cons, h]
  | b :: bs => by
    unfold insertLe
    by_cases hle : dfGe docs a b = true
    · by_cases h : docFreq docs a = k <;>
        simp [hle, List.filter_cons, h]
    · have hf : dfGe docs a b = false := by
        cases hv : dfGe docs a b
        · rfl
        · exact absurd hv hle
      have hlt : docFreq docs a < docFreq docs b := by
        have hnle : ¬ (docFreq docs b ≤ docFreq docs a) := by
          unfold dfGe at hf
          exact of_decide_eq_false hf
        exact Nat.lt_of_not_le hnle
      simp only [hf, Bool.false_eq_true, if_false]
      rw [List.filter_cons, List.filter_cons, filter_insertLe_dfGe docs k a bs]
      by_cases h : docFreq docs a = k
      · have hbk : ¬ docFreq docs b = k := by
          intro hb
          exact Nat.lt_irrefl _ (h ▸ hb ▸ hlt)
        simp [h, hbk]
      · by_cases hb : docFreq docs b = k <;> simp [h, hb]

theorem filter_isort_dfGe (docs : List Doc) (k : Nat) :
    ∀ l : List String,
      (isort (dfGe docs) l).filter (fun t => docFreq docs t == k) =
        l.filter (fun t => docFreq docs t == k)
  | [] => rfl
  | a :: as => by
    unfold isort
    rw [filter_insertLe_dfGe, filter_isort_dfGe docs k as, List.filter_cons]
    by_cases h : docFreq docs a = k <;> simp [h]

theorem inferIters_le (thr : ℚ) :
    ∀ (n : Nat) (change : Nat → ℚ), inferIters n thr change ≤ n
  | 0, _ => Nat.le_refl 0
  | n + 1, change => by
    unfold inferIters
    by_cases h : change 0 < thr
    · simp only [h, if_true]
      exact Nat.succ_le_succ (Nat.zero_le n)
    · simp only [h, if_false]
      rw [Nat.add_comm 1 (inferIters n thr _)]
      exact Nat.succ_le_succ (inferIters_le thr n _)

theorem inferIters_le_of_change_lt (thr : ℚ) :
    ∀ (n : Nat) (change : Nat → ℚ) (k : Nat), k < n → change k < thr →
      inferIters n thr change ≤ k + 1
  | 0, _, k, hk, _ => absurd hk (Nat.not_lt_zero k)
  | n + 1, change, k, hk, hc => by
    unfold inferIters
    by_cases h : change 0 < thr
    · simp only [h, if_true]
      exact Nat.succ_le_succ (Nat.zero_le k)
    · simp only [h, if_false]
      match k with
      | 0 => exact absurd hc h
      | k' + 1 =>
        have hih : inferIters n thr (fun i => change (i + 1)) ≤ k' + 1 :=
          inferIters_le_of_change_lt thr n (fun i => change (i + 1)) k'
            (Nat.lt_of_succ_lt_succ hk) hc
        rw [Nat.add_comm 1 (inferIters n thr _)]
        exact Nat.succ_le_succ hih

/-- C5: a vocabulary built with maximum size `n` has at most `n` tokens; every
survivor of the document-frequency filter that is dropped by the size cut has
document frequency at most that of every retained token (so exactly the `n`
most frequent survive), and survivors of equal document frequency are kept in
first-seen order (the sort is stable: filtering the sorted survivors at any
frequency gives the same sequence as filtering the first-seen survivors). -/
theorem vocab_bounded_and_top_n (docs : List Doc) (minDf : Nat) (maxFrac : ℚ) (n : Nat) :
    (build docs minDf maxFrac n).length ≤ n ∧
    (∀ t, t ∈ survivors docs minDf maxFrac → t ∉ build docs minDf maxFrac n →
      ∀ u, u ∈ build docs minDf maxFrac n → docFreq docs t ≤ docFreq docs u) ∧
    (∀ k, (sortedSurvivors docs minDf maxFrac).filter (fun t => docFreq docs t == k) =
      (survivors docs minDf maxFrac).filter (fun t => docFreq docs t == k)) := by
  refine ⟨?_, ?_, ?_⟩
  · unfold build
    rw [List.length_take]
    exact Nat.min_le_left _ _
  · intro t ht hnt u hu
    unfold build at hnt hu
    have hperm : (sortedSurvivors docs minDf maxFrac).Perm (survivors docs minDf maxFrac) :=
      isort_perm _ _
    have hts : t ∈ sortedSurvivors docs minDf maxFrac := hperm.mem_iff.mpr ht
    have hpw : (sortedSurvivors docs minDf maxFrac).Pairwise
        (fun x y => dfGe docs x y = true) :=
      pairwise_isort (dfGe_total docs) (dfGe_trans docs) _
    have hsplit : sortedSurvivors docs minDf maxFrac =
        (sortedSurvivors docs minDf maxFrac).take n ++
          (sortedSurvivors docs minDf maxFrac).drop n :=
      (List.take_append_drop n _).symm
    have htd : t ∈ (sortedSurvivors docs minDf maxFrac).drop n := by
      rw [hsplit] at hts
      rcases List.mem_append.mp hts with h | h
      · exact absurd h hnt
      · exact h
    rw [hsplit] at hpw
    rcases List.pairwise_append.mp hpw with ⟨_, _, hcross⟩
    have hdf : dfGe docs u t = true := hcross u hu t htd
    unfold dfGe at hdf
    exact of_decide_eq_true hdf
  · intro k
    exact filter_isort_dfGe docs k _

theorem vocab_bounded_and_top_n_witness :
    ("c" ∈ survivors docsABC 1 1 ∧ "c" ∉ build docsABC 1 1 2 ∧ "a" ∈ build docsABC 1 1 2) ∧
    docFreq docsABC "c" ≤ docFreq docsABC "a" :=
  ⟨⟨by decide, by decide, by decide⟩,
    (vocab_bounded_and_top_n docsABC 1 1 2).2.1 "c" (by decide) (by decide) "a" (by decide)⟩

/-- C6: the integer id of a token in the built vocabulary is its position, and
positions are in decreasing document-frequency order (the token at any larger
id has document frequency at most that of any smaller id); ties are resolved
in first-seen order by stability of the sort, deterministically. -/
theorem vocab_ids_decreasing_df (docs : List Doc) (minDf : Nat) (maxFrac : ℚ) (n : Nat) :
    (∀ (i j : Nat) (hi : i < (build docs minDf maxFrac n).length)
      (hj : j < (build docs minDf maxFrac n).length), i ≤ j →
      docFreq docs ((build docs minDf maxFrac n).get ⟨j, hj⟩) ≤
        docFreq docs ((build docs minDf maxFrac n).get ⟨i, hi⟩)) ∧
    (∀ k, (sortedSurvivors docs minDf maxFrac).filter (fun t => docFreq docs t == k) =
      (survivors docs minDf maxFrac).filter (fun t => docFreq docs t == k)) := by
  constructor
  · intro i j hi hj hij
    have hpw : (build docs minDf maxFrac n).Pairwise (fun x y => dfGe docs x y = true) := by
      unfold build
      exact (pairwise_isort (dfGe_total docs) (dfGe_trans docs) _).sublist
        (List.take_sublist _ _)
    rcases Nat.eq_or_lt_of_le hij with rfl | hlt
    · exact Nat.le_refl _
    · have hdf := List.pairwise_iff_get.mp hpw ⟨i, hi⟩ ⟨j, hj⟩ hlt
      unfold dfGe at hdf
      exact of_decide_eq_true hdf
  · intro k
    exact filter_isort_dfGe docs k _

theorem vocab_ids_decreasing_df_witness :
    ((0 : Nat) ≤ 1) ∧
    docFreq docsABC ((build docsABC 1 1 3).get ⟨1, by decide⟩) ≤
      docFreq docsABC ((build docsABC 1 1 3).get ⟨0, by decide⟩) :=
  ⟨by decide,
    (vocab_ids_decreasing_df docsABC 1 1 3).1 0 1 (by decide) (by decide) (by decide)⟩

theorem mem_doc2bow {vocab : List String} {doc : Doc} {p : Nat × Nat}
    (hp : p ∈ doc2bow vocab doc) :
    p.1 < vocab.length ∧ ∃ t, vocab[p.1]? = some t ∧ p.2 = doc.count t ∧ t ∈ doc := by
  unfold doc2bow at hp
  rcases List.mem_filterMap.mp hp with ⟨i, hi, hf⟩
  have hilt : i < vocab.length := List.mem_range.mp hi
  rcases hv : vocab[i]? with _ | t
  · rw [hv] at hf
    dsimp only at hf
    exact absurd hf (by simp)
  · rw [hv] at hf
    dsimp only at hf
    by_cases hc : doc.count t = 0
    · rw [if_pos hc] at hf
      exact absurd hf (by simp)
    · rw [if_neg hc] at hf
      have hpe : p = (i, doc.count t) := (Option.some_inj.mp hf).symm
      subst hpe
      refine ⟨hilt, t, hv, rfl, ?_⟩
      exact List.count_pos_iff.mp (Nat.pos_of_ne_zero hc)

/-- C7: the encoded corpus never contains a token id outside the range of the
vocabulary, and a token absent from the vocabulary (in particular one that did
not survive the document-frequency filter) is silently dropped: no entry of
any encoded document refers to it. -/
theorem encode_ids_in_range (docs : List Doc) (vocab : List String) :
    (∀ e, e ∈ encode docs vocab → ∀ p, p ∈ e → p.1 < vocab.length) ∧
    (∀ t, t ∉ vocab → ∀ e, e ∈ encode docs vocab → ∀ p, p ∈ e →
      vocab[p.1]? ≠ some t) := by
  constructor
  · intro e he p hp
    rcases List.mem_map.mp he with ⟨d, _, rfl⟩
    exact (mem_doc2bow hp).1
  · intro t htv e he p hp hsome
    rcases List.mem_map.mp he with ⟨d, _, rfl⟩
    rcases (mem_doc2bow hp).2 with ⟨u, hu, _, _⟩
    rw [hsome] at hu
    have : t ∈ vocab := List.getElem?_mem hsome
    exact htv this

theorem encode_ids_in_range_witness :
    ("x" ∉ ["a", "b"] ∧ [(0, 1)] ∈ encode [["a", "x"]] ["a", "b"] ∧
      ((0, 1) : Nat × Nat) ∈ [(0, 1)]) ∧
    (["a", "b"][(0 : Nat)]? ≠ some "x") :=
  ⟨⟨by decide, by decide, by decide⟩,
    (encode_ids_in_range [["a", "x"]] ["a", "b"]).2 "x" (by decide) [(0, 1)]
      (by decide) (0, 1) (by decide)⟩

/-- C8: encoding produces exactly one sparse vector per document, in the exact
input order (the vector at index i is the encoding of the document at index
i), and a document all of whose tokens fall outside the vocabulary stays in
the corpus as the empty vector rather than being removed. -/
theorem encode_alignment (docs : List Doc) (vocab : List String) :
    (encode docs vocab).length = docs.length ∧
    (∀ (i : Nat), (encode docs vocab)[i]? = (docs[i]?).map (doc2bow vocab)) ∧
    (∀ d, d ∈ docs → (∀ t, t ∈ d → t ∉ vocab) → doc2bow vocab d = []) := by
  refine ⟨List.length_map _ _, fun i => List.getElem?_map _ _ _, ?_⟩
  intro d _ hout
  unfold doc2bow
  rw [List.filterMap_eq_nil_iff]
  intro i hi
  rcases hv : vocab[i]? with _ | t
  · rfl
  · dsimp only
    by_cases hc : d.count t = 0
    · simp [hc]
    · have htd : t ∈ d := List.count_pos_iff.mp (Nat.pos_of_ne_zero hc)
      have htv : t ∈ vocab := List.getElem?_mem hv
      exact absurd htv (hout t htd)

theorem encode_alignment_witness :
    (["x", "y"] ∈ [["x", "y"], ["a"]] ∧ (∀ t, t ∈ (["x", "y"] : Doc) → t ∉ ["a"])) ∧
    doc2bow ["a"] ["x", "y"] = [] :=
  ⟨⟨by decide, by decide⟩,
    (encode_alignment [["x", "y"], ["a"]] ["a"]).2.2 ["x", "y"] (by decide) (by decide)⟩

/-- C9: a topic whose top terms never co-occur with anything in the corpus
(degenerate co-occurrence denominator) contributes exactly 0 to the model's
mean coherence — the mean over all K topics is the sum over the other topics
divided by K — and scoring is a total function on ℚ, so it returns a value
rather than raising, whatever the c_v aggregation `sim` of the non-degenerate
topics computes. -/
theorem degenerate_topic_scores_zero (texts : List Doc) (vocabTokens : List String)
    (sim : List String → ℚ) (top : List String) (pre post : List (List String))
    (h : topicCoocMass texts vocabTokens top = 0) :
    topicCoherence texts vocabTokens top sim = 0 ∧
    modelCoherence texts vocabTokens (pre ++ top :: post) sim =
      (((pre ++ post).map (fun s => topicCoherence texts vocabTokens s sim)).sum) /
        ((pre.length + 1 + post.length : Nat) : ℚ) := by
  have h0 : topicCoherence texts vocabTokens top sim = 0 := by
    unfold topicCoherence
    rw [if_pos h]
  refine ⟨h0, ?_⟩
  unfold modelCoherence
  have hnum : ((pre ++ top :: post).map
      (fun s => topicCoherence texts vocabTokens s sim)).sum =
      ((pre ++ post).map (fun s => topicCoherence texts vocabTokens s sim)).sum := by
    rw [List.map_append, List.map_cons, List.sum_append, List.sum_cons, h0,
      List.map_append, List.sum_append, zero_add]
  have hden : (pre ++ top :: post).length = pre.length + 1 + post.length := by
    rw [List.length_append, List.length_cons]
    omega
  rw [hnum, hden]

theorem degenerate_topic_scores_zero_witness :
    topicCoocMass [["a"], ["b"]] ["a", "b"] ["a", "b"] = 0 ∧
    modelCoherence [["a"], ["b"]] ["a", "b"] ([] ++ ["a", "b"] :: []) (fun _ => 1) =
      ((([] ++ [] : List (List String)).map
        (fun s => topicCoherence [["a"], ["b"]] ["a", "b"] s (fun _ => 1))).sum) /
        ((List.length ([] : List (List String)) + 1 +
          List.length ([] : List (List String)) : Nat) : ℚ) :=
  ⟨by decide,
    (degenerate_topic_scores_zero [["a"], ["b"]] ["a", "b"] (fun _ => 1)
      ["a", "b"] [] [] (by decide)).2⟩

/-- C10: every row surviving the notebook's two filter lines has a present
abstract and a review flag equal to false; every entry of the encoded corpus
is, index for index, the encoding of the tokens of such a row, and every
document handed to the dictionary builder is the tokens of such a row — so
abstract-less items and review articles are excluded from the whole
downstream pipeline. -/
theorem prepared_rows_invariant (rows : List WosRow) :
    (∀ r, r ∈ preparedRows rows → r.AB.isSome ∧ r.review = false) ∧
    (∀ (i : Nat), (pipelineCorpus rows)[i]? =
      ((preparedRows rows)[i]?).map (fun r => doc2bow (pipelineDictionary rows) r.tokens)) ∧
    (∀ d, d ∈ pipelineDocs rows →
      ∃ r, r ∈ preparedRows rows ∧ r.AB.isSome ∧ r.review = false ∧ d = r.tokens) := by
  have hinv : ∀ r, r ∈ preparedRows rows → r.AB.isSome ∧ r.review = false := by
    intro r hr
    unfold preparedRows dropReviews at hr
    rcases List.mem_filter.mp hr with ⟨hr1, hrev⟩
    unfold dropMissingAbstract at hr1
    rcases List.mem_filter.mp hr1 with ⟨_, hab⟩
    constructor
    · cases hv : r.AB
      · rw [hv] at hab
        exact absurd hab (by simp)
      · rfl
    · cases hv : r.review
      · rfl
      · rw [hv] at hrev
        exact absurd hrev (by simp)
  refine ⟨hinv, ?_, ?_⟩
  · intro i
    unfold pipelineCorpus encode pipelineDocs
    rw [List.map_map, List.getElem?_map]
    rfl
  · intro d hd
    unfold pipelineDocs at hd
    rcases List.mem_map.mp hd with ⟨r, hr, rfl⟩
    exact ⟨r, hr, (hinv r hr).1, (hinv r hr).2, rfl⟩

theorem prepared_rows_invariant_witness :
    ((⟨some "abs one", false, ["a", "b"]⟩ : WosRow) ∈ preparedRows rowsSample) ∧
    ((⟨some "abs one", false, ["a", "b"]⟩ : WosRow).AB.isSome ∧
      (⟨some "abs one", false, ["a", "b"]⟩ : WosRow).review = false) :=
  ⟨by decide, (prepared_rows_invariant rowsSample).1 _ (by decide)⟩

/-- C1: the notebook labels each document with
`sorted(lda_model[corpus][text])[0][0]`, the smallest listed topic id, not the
argmax of the θ row.  At the document-topic list [(0, 3/10), (1, 7/10)] the
notebook's label is topic 0 while the dominant topic of the θ row
[3/10, 7/10] is topic 1; on the spec's tie example θ = [1/2, 1/2, 0] the
dominant topic (lowest id among the tied maxima) is 0, which the code only
matches by accident of the tie. -/
theorem assignedTopic_not_dominant :
    assignedTopic [(0, prob3of10), (1, prob7of10)] = some 0 ∧
    dominantTopic [prob3of10, prob7of10] = 1 ∧
    dominantTopic [prob1of2, prob1of2, 0] = 0 :=
  ⟨by decide, by decide, by decide⟩

/-- C2 counterexample: the model-selection sweep `for i in range(1,20,1)`
trains a model with `num_topics = 1`, so it is false that no model with K < 2
is trained anywhere in the pipeline and false that a K < 2 training call is
rejected before computation starts. -/
theorem sweep_trains_K_one :
    1 ∈ sweepTopicCounts ∧ (sweepLdaCall 1).numTopics = 1 ∧
    ¬ (∀ k, k ∈ sweepTopicCounts → 2 ≤ k) := by
  refine ⟨by decide, rfl, fun h => ?_⟩
  exact absurd (h 1 (by decide)) (by decide)

/-- C2 amended: the pipeline performs no K < 2 validation; the sweep trains
one model for every K in range(1,20) = [1, …, 19], K = 1 included, and the
final model is trained with K = 14. -/
theorem sweep_topic_counts_enumerated :
    sweepTopicCounts = [1, 2, 3, 4, 5, 6, 7, 8, 9, 10, 11, 12, 13, 14, 15, 16, 17, 18, 19] ∧
    (sweepLdaCall 1).numTopics = 1 ∧ finalLdaCall.numTopics = 14 :=
  ⟨by decide, rfl, rfl⟩

/-- C3 counterexample: the executed pass count of a training run is the
hard-coded `passes` argument, independent of the convergence trace: even with
a bound change of 0 from the first pass on (below any positive threshold),
the final training call runs its full 10 passes instead of stopping after
one, so training does not stop at cap-or-convergence, whichever comes
first. -/
theorem passes_fixed_despite_convergence :
    passesExecuted finalLdaCall (fun _ => 0) = 10 ∧
    ¬ passesExecuted finalLdaCall (fun _ => 0) ≤ 1 :=
  ⟨rfl, by decide⟩

/-- C3 amended: only the per-document E-step has the cap-or-convergence
policy — it runs at most `iterations` steps and stops within k+1 steps
whenever the k-th change falls below the threshold — while the number of
corpus passes is fixed and hard-coded: exactly `passes` = 10 in both the
sweep calls and the final call, whatever the convergence trace. -/
theorem training_termination_policy :
    (∀ (thr : ℚ) (change : Nat → ℚ),
      inferIters finalLdaCall.iterations thr change ≤ finalLdaCall.iterations) ∧
    (∀ (thr : ℚ) (change : Nat → ℚ) (k : Nat),
      k < finalLdaCall.iterations → change k < thr →
      inferIters finalLdaCall.iterations thr change ≤ k + 1) ∧
    (∀ (change : Nat → ℚ) (i : Nat),
      passesExecuted finalLdaCall change = 10 ∧
      passesExecuted (sweepLdaCall i) change = 10) :=
  ⟨fun thr change => inferIters_le thr _ change,
   fun thr change k hk hc => inferIters_le_of_change_lt thr _ change k hk hc,
   fun _ _ => ⟨rfl, rfl⟩⟩

theorem training_termination_policy_witness :
    ((0 : Nat) < finalLdaCall.iterations ∧ (0 : ℚ) < 1) ∧
    inferIters finalLdaCall.iterations 1 (fun _ => 0) ≤ 0 + 1 :=
  ⟨⟨by decide, by decide⟩,
    training_termination_policy.2.1 1 (fun _ => 0) 0 (by decide) (by decide)⟩

end GreenComputing
